import Mathlib

/-!
Shallow embedding of the UVM assembler (`src/assembler.py`) and interpreter
(`src/interpreter.py`): the four-opcode ISA, the 40-bit little-endian
instruction packing, the symbolic-command validation pipeline, and the
fetch-decode-execute loop, together with theorems about them.

Machine integers are modelled as `Nat` (Python ints are unbounded and all
values handled here are non-negative, except the symbolic-command fields,
which are `Int` because the range checks guard against negatives).
-/

namespace UVM

/-- The four UVM opcodes (`not` is a Lean keyword, hence `not_`). -/
inductive Op where
  | load_const
  | read_mem
  | write_mem
  | not_
deriving DecidableEq, Repr

/-- Table `Assembler.OPCODES`: opcode name → 6-bit numeric code. -/
def OPCODES : Op → Nat
  | .load_const => 56
  | .write_mem => 54
  | .not_ => 59
  | .read_mem => 62

/-- Table `Interpreter.REVERSE_OPCODES`: numeric code → opcode name (`none` when
the code is absent from the table, i.e. Python's `dict.get` returning `None`). -/
def REVERSE_OPCODES : Nat → Option Op
  | 56 => some .load_const
  | 54 => some .write_mem
  | 59 => some .not_
  | 62 => some .read_mem
  | _ => none

/-- Width in bits of the C field of each opcode (the `size_C` value the
assembler stores; `_generate_binary` and `decode_instruction` branch on the
opcode itself, with these widths hard-coded as masks). -/
def size_C : Op → Nat
  | .load_const => 25
  | .read_mem => 7
  | .write_mem => 13
  | .not_ => 13

/-- An instruction record as built by `Assembler._translate_*` and as returned
by `Interpreter.decode_instruction`: `{opcode, A, B, C}`.  (The assembler's
records also carry `size_C`, but `_generate_binary` never reads it, so it is
omitted here.) -/
structure Entry where
  opcode : Op
  A : Nat
  B : Nat
  C : Nat
deriving DecidableEq, Repr

/-- Conversion of a little-endian byte list to a natural number, as Python
int.from_bytes with byteorder little. -/
def bytesToNat : List Nat → Nat
  | [] => 0
  | b :: bs => b + 2 ^ 8 * bytesToNat bs

/-- Conversion of a value to 5 little-endian bytes, as Python to_bytes with
byteorder little.  Defined for `v < 2 ^ 40`
(Python raises `OverflowError` above that; every value the encoder packs is
below `2 ^ 38`). -/
def natToBytes5 (v : Nat) : List Nat :=
  [v % 2 ^ 8, v / 2 ^ 8 % 2 ^ 8, v / 2 ^ 16 % 2 ^ 8, v / 2 ^ 24 % 2 ^ 8, v / 2 ^ 32 % 2 ^ 8]

/-- The per-command body of `Assembler._generate_binary`: pack one
instruction record into a 40-bit value (A in bits 0-5, B in bits 6-12, C from
bit 13 up to the opcode's C width) and emit it as 5 little-endian bytes. -/
def encodeEntry (cmd : Entry) : List Nat :=
  let value : Nat :=
    match cmd.opcode with
    | .load_const => (cmd.A &&& 0x3F) ||| ((cmd.B &&& 0x7F) <<< 6) ||| ((cmd.C &&& 0x1FFFFFF) <<< 13)
    | .read_mem => (cmd.A &&& 0x3F) ||| ((cmd.B &&& 0x7F) <<< 6) ||| ((cmd.C &&& 0x7F) <<< 13)
    | .write_mem => (cmd.A &&& 0x3F) ||| ((cmd.B &&& 0x7F) <<< 6) ||| ((cmd.C &&& 0x1FFF) <<< 13)
    | .not_ => (cmd.A &&& 0x3F) ||| ((cmd.B &&& 0x7F) <<< 6) ||| ((cmd.C &&& 0x1FFF) <<< 13)
  natToBytes5 value

/-- Function `Assembler._generate_binary`: concatenate the 5-byte encodings of the
program's records.  (The source's `Unknown opcode` failure branch is
unreachable here because `Op` is a closed enumeration.) -/
def generate_binary (program : List Entry) : List Nat :=
  (program.map encodeEntry).flatten

/-- Function `Interpreter.decode_instruction`: 5 bytes → instruction record, `none` on
a wrong length or an opcode code absent from `REVERSE_OPCODES`. -/
def decode_instruction (instruction_bytes : List Nat) : Option Entry :=
  if instruction_bytes.length ≠ 5 then none
  else
    let value := bytesToNat instruction_bytes
    let A := value &&& 0x3F
    let B := (value >>> 6) &&& 0x7F
    match REVERSE_OPCODES A with
    | none => none
    | some op =>
      let C :=
        match op with
        | .load_const => (value >>> 13) &&& 0x1FFFFFF
        | .read_mem => (value >>> 13) &&& 0x7F
        | .write_mem => (value >>> 13) &&& 0x1FFF
        | .not_ => (value >>> 13) &&& 0x1FFF
      some ⟨op, A, B, C⟩

/-- A symbolic JSON command: each dict key is modelled as an optional field
(`none` = key missing).  Values are `Int` because the range checks in the
source guard against negatives. -/
structure Cmd where
  opcode : Option String := none
  dest_reg : Option Int := none
  value : Option Int := none
  src_reg : Option Int := none
  dest_addr : Option Int := none

/-- Function `Assembler._translate_load_const` (success value only; the printed
message and boolean are modelled by `Option`). -/
def translate_load_const (cmd : Cmd) : Option Entry :=
  match cmd.dest_reg, cmd.value with
  | some dr, some v =>
    if 0 ≤ dr ∧ dr ≤ 127 then
      if 0 ≤ v ∧ v ≤ 0x1FFFFFF then
        some ⟨.load_const, OPCODES .load_const, dr.toNat, v.toNat⟩
      else none
    else none
  | _, _ => none

/-- Function `Assembler._translate_read_mem`. -/
def translate_read_mem (cmd : Cmd) : Option Entry :=
  match cmd.src_reg, cmd.dest_reg with
  | some sr, some dr =>
    if 0 ≤ sr ∧ sr ≤ 127 then
      if 0 ≤ dr ∧ dr ≤ 127 then
        some ⟨.read_mem, OPCODES .read_mem, sr.toNat, dr.toNat⟩
      else none
    else none
  | _, _ => none

/-- Function `Assembler._translate_write_mem`. -/
def translate_write_mem (cmd : Cmd) : Option Entry :=
  match cmd.src_reg, cmd.dest_addr with
  | some sr, some da =>
    if 0 ≤ sr ∧ sr ≤ 127 then
      if 0 ≤ da ∧ da ≤ 0x1FFF then
        some ⟨.write_mem, OPCODES .write_mem, sr.toNat, da.toNat⟩
      else none
    else none
  | _, _ => none

/-- Function `Assembler._translate_not`. -/
def translate_not (cmd : Cmd) : Option Entry :=
  match cmd.src_reg, cmd.dest_addr with
  | some sr, some da =>
    if 0 ≤ sr ∧ sr ≤ 127 then
      if 0 ≤ da ∧ da ≤ 0x1FFF then
        some ⟨.not_, OPCODES .not_, sr.toNat, da.toNat⟩
      else none
    else none
  | _, _ => none

/-- Function `Assembler._translate_command`: dispatch on the opcode string; `none`
when the `opcode` key is missing or names an unknown opcode. -/
def translate_command (cmd : Cmd) : Option Entry :=
  match cmd.opcode with
  | none => none
  | some opcode =>
    if opcode = "load_const" then translate_load_const cmd
    else if opcode = "read_mem" then translate_read_mem cmd
    else if opcode = "write_mem" then translate_write_mem cmd
    else if opcode = "not" then translate_not cmd
    else none

/-- The translation loop of `Assembler.assemble`: translate each command in
order, failing with the zero-based index (`line_num`) of the first command
that does not translate. -/
def translate_all (cmds : List Cmd) (i : Nat) : Except Nat (List Entry) :=
  match cmds with
  | [] => .ok []
  | c :: rest =>
    match translate_command c with
    | none => .error i
    | some e =>
      match translate_all rest (i + 1) with
      | .error j => .error j
      | .ok es => .ok (e :: es)

/-- Function `Assembler.assemble` (binary-production core): translate every command,
then generate the binary stream.  On `Except.error i` the source returns
before `_write_binary_file`, so no output is written. -/
def assemble (cmds : List Cmd) : Except Nat (List Nat) :=
  match translate_all cmds 0 with
  | .error i => .error i
  | .ok program => .ok (generate_binary program)

/-- Size of the data memory, 8192 words (the source's len of data_memory). -/
def MEM_SIZE : Nat := 8192

/-- Python's `~r & 0xFFFFFFFF` for `r ≥ 0`: two's-complement `~r` flips every
bit, and the mask keeps the low 32, so the result is the low 32 bits of `r`
with each bit flipped. -/
def bitwiseNot32 (r : Nat) : Nat := (r % 2 ^ 32) ^^^ 0xFFFFFFFF

/-- The `Interpreter` state (`__init__`): instruction memory (a byte array),
data memory and registers (modelled as total functions `Nat → Nat`; the
source's lists are only ever indexed below 8192 resp. 128), the program
counter and the halted flag. -/
structure Interpreter where
  instruction_memory : List Nat
  data_memory : Nat → Nat
  registers : Nat → Nat
  pc : Nat
  halted : Bool

/-- The freshly constructed interpreter after a program is loaded: zeroed
data memory and registers, `pc = 0`, not halted. -/
def initInterpreter (program : List Nat) : Interpreter :=
  { instruction_memory := program
    data_memory := fun _ => 0
    registers := fun _ => 0
    pc := 0
    halted := false }

/-- Method `Interpreter.execute_instruction`.  The source's `0 <= addr` halves of the
bounds checks are vacuous over `Nat`.  An out-of-bounds address only prints a
message and leaves the state unchanged. -/
def execute_instruction (s : Interpreter) (instruction : Entry) : Interpreter :=
  match instruction.opcode with
  | .load_const =>
    { s with registers := Function.update s.registers instruction.B instruction.C }
  | .read_mem =>
    let src_addr := s.registers instruction.B
    if src_addr < MEM_SIZE then
      { s with registers := Function.update s.registers instruction.C (s.data_memory src_addr) }
    else s
  | .write_mem =>
    let dest_addr := instruction.C
    if dest_addr < MEM_SIZE then
      { s with data_memory := Function.update s.data_memory dest_addr (s.registers instruction.B) }
    else s
  | .not_ =>
    let dest_addr := instruction.C
    if dest_addr < MEM_SIZE then
      { s with data_memory :=
          Function.update s.data_memory dest_addr (bitwiseNot32 (s.registers instruction.B)) }
    else s

/-- The tail of one iteration of `Interpreter.run`'s loop body: execute the
decoded instruction, advance `pc` by 5, and set `halted` once `pc` reaches
the end of the instruction stream. -/
def postStep (s : Interpreter) (instruction : Entry) : Interpreter :=
  let s1 := execute_instruction s instruction
  let s2 := { s1 with pc := s1.pc + 5 }
  if s2.instruction_memory.length ≤ s2.pc then { s2 with halted := true } else s2

/-- Method `Interpreter.run`: the fetch-decode-execute loop.  Returns the final
state and the number of instructions executed.  The loop breaks (without
executing anything further) on an incomplete trailing instruction or a
decode failure; otherwise it executes the instruction and continues at
`pc + 5`. -/
def run (s : Interpreter) : Interpreter × Nat :=
  if _h : s.halted = false ∧ s.pc < s.instruction_memory.length then
    if s.instruction_memory.length < s.pc + 5 then (s, 0)
    else
      match decode_instruction ((s.instruction_memory.drop s.pc).take 5) with
      | none => (s, 0)
      | some instruction =>
        let r := run (postStep s instruction)
        (r.1, r.2 + 1)
  else (s, 0)
termination_by s.instruction_memory.length - s.pc
decreasing_by
  have him : (execute_instruction s instruction).instruction_memory = s.instruction_memory := by
    unfold execute_instruction; cases instruction.opcode <;> dsimp only <;> split <;> rfl
  have hpc : (execute_instruction s instruction).pc = s.pc := by
    unfold execute_instruction; cases instruction.opcode <;> dsimp only <;> split <;> rfl
  unfold postStep
  dsimp only
  split <;> simp [him, hpc] <;> omega

/-- The 32-bit value invariant of C9: every register and every data-memory
word holds a value below `2 ^ 32`. -/
def Inv32 (s : Interpreter) : Prop :=
  (∀ i, s.registers i < 2 ^ 32) ∧ (∀ i, s.data_memory i < 2 ^ 32)

/-- Validity of a symbolic command in the specification's words (C6): the
command names a known opcode, carries that opcode's required fields, and
each operand is in range — register indices in [0,127], `load_const` value
in [0, 2^25-1], `write_mem`/`not` destination address in [0, 2^13-1].
Spec-side definition, to be compared with `translate_command`. -/
def validCmdSpec (c : Cmd) : Bool :=
  match c.opcode with
  | some op =>
    if op = "load_const" then
      match c.dest_reg, c.value with
      | some dr, some v => decide (0 ≤ dr ∧ dr ≤ 127) && decide (0 ≤ v ∧ v ≤ 2 ^ 25 - 1)
      | _, _ => false
    else if op = "read_mem" then
      match c.src_reg, c.dest_reg with
      | some sr, some dr => decide (0 ≤ sr ∧ sr ≤ 127) && decide (0 ≤ dr ∧ dr ≤ 127)
      | _, _ => false
    else if op = "write_mem" then
      match c.src_reg, c.dest_addr with
      | some sr, some da => decide (0 ≤ sr ∧ sr ≤ 127) && decide (0 ≤ da ∧ da ≤ 2 ^ 13 - 1)
      | _, _ => false
    else if op = "not" then
      match c.src_reg, c.dest_addr with
      | some sr, some da => decide (0 ≤ sr ∧ sr ≤ 127) && decide (0 ≤ da ∧ da ≤ 2 ^ 13 - 1)
      | _, _ => false
    else false
  | none => false

/-! ## Theorems -/

theorem execute_instruction_memory (s : Interpreter) (i : Entry) :
    (execute_instruction s i).instruction_memory = s.instruction_memory := by
  unfold execute_instruction
  cases i.opcode <;> dsimp only <;> split <;> rfl

theorem execute_pc (s : Interpreter) (i : Entry) :
    (execute_instruction s i).pc = s.pc := by
  unfold execute_instruction
  cases i.opcode <;> dsimp only <;> split <;> rfl

theorem execute_halted (s : Interpreter) (i : Entry) :
    (execute_instruction s i).halted = s.halted := by
  unfold execute_instruction
  cases i.opcode <;> dsimp only <;> split <;> rfl

theorem postStep_instruction_memory (s : Interpreter) (i : Entry) :
    (postStep s i).instruction_memory = s.instruction_memory := by
  unfold postStep
  dsimp only
  split <;> simp [execute_instruction_memory]

theorem postStep_pc (s : Interpreter) (i : Entry) :
    (postStep s i).pc = s.pc + 5 := by
  unfold postStep
  dsimp only
  split <;> simp [execute_pc]

/-- Packing three bit fields with `&&&`, `<<<`, `|||` is plain arithmetic:
A in bits 0-5, B in bits 6-12, C (reduced to its width `w`) from bit 13. -/
theorem pack_value (A B C w : Nat) (hA : A < 2 ^ 6) (hB : B < 2 ^ 7) :
    (A &&& (2 ^ 6 - 1)) ||| ((B &&& (2 ^ 7 - 1)) <<< 6) ||| ((C &&& (2 ^ w - 1)) <<< 13)
      = 2 ^ 13 * (C % 2 ^ w) + 2 ^ 6 * B + A := by
  rw [Nat.and_pow_two_sub_one_eq_mod, Nat.and_pow_two_sub_one_eq_mod,
      Nat.and_pow_two_sub_one_eq_mod, Nat.shiftLeft_eq, Nat.shiftLeft_eq,
      Nat.mod_eq_of_lt hA, Nat.mod_eq_of_lt hB]
  have h1 : A ||| B * 2 ^ 6 = 2 ^ 6 * B + A := by
    rw [mul_comm B (2 ^ 6), Nat.or_comm]
    exact (Nat.mul_add_lt_is_or hA B).symm
  have h2 : 2 ^ 6 * B + A < 2 ^ 13 := by omega
  rw [h1, mul_comm (C % 2 ^ w) (2 ^ 13), Nat.or_comm, ← Nat.mul_add_lt_is_or h2]
  omega

/-- Reassembling the 5 little-endian bytes of a 40-bit value recovers it. -/
theorem bytesToNat_natToBytes5 (v : Nat) (hv : v < 2 ^ 40) :
    bytesToNat (natToBytes5 v) = v := by
  simp only [natToBytes5, bytesToNat]
  omega

/-- Packing lemma: `_generate_binary` turns a well-formed instruction record into the bytes
of `2 ^ 13 * C + 2 ^ 6 * B + A`. -/
theorem encodeEntry_packed (op : Op) (B C : Nat) (hB : B < 2 ^ 7) (hC : C < 2 ^ size_C op) :
    encodeEntry ⟨op, OPCODES op, B, C⟩ = natToBytes5 (2 ^ 13 * C + 2 ^ 6 * B + OPCODES op) := by
  have h63 : (0x3F : Nat) = 2 ^ 6 - 1 := rfl
  have h127 : (0x7F : Nat) = 2 ^ 7 - 1 := rfl
  have h13 : (0x1FFF : Nat) = 2 ^ 13 - 1 := rfl
  have h25 : (0x1FFFFFF : Nat) = 2 ^ 25 - 1 := rfl
  cases op <;>
    · simp only [encodeEntry, OPCODES, size_C] at hC ⊢
      rw [h63, h127]
      first
        | rw [h25]
        | rw [h13]
        | skip
      rw [pack_value _ _ _ _ (by norm_num) hB, Nat.mod_eq_of_lt hC]

theorem natToBytes5_length (v : Nat) : (natToBytes5 v).length = 5 := rfl

/-- Decoding lemma: `decode_instruction` recovers the fields of a packed 40-bit value. -/
theorem decode_packed (op : Op) (B C : Nat) (hB : B < 2 ^ 7) (hC : C < 2 ^ size_C op) :
    decode_instruction (natToBytes5 (2 ^ 13 * C + 2 ^ 6 * B + OPCODES op))
      = some ⟨op, OPCODES op, B, C⟩ := by
  have ha : OPCODES op < 2 ^ 6 := by cases op <;> norm_num [OPCODES]
  have hC' : C < 2 ^ 25 := by cases op <;> simp only [size_C] at hC <;> omega
  have hv : 2 ^ 13 * C + 2 ^ 6 * B + OPCODES op < 2 ^ 40 := by omega
  have hmod : (2 ^ 13 * C + 2 ^ 6 * B + OPCODES op) % 2 ^ 6 = OPCODES op := by omega
  cases op <;>
    · simp only [OPCODES, size_C] at hC hv hmod ⊢
      rw [decode_instruction]
      rw [if_neg (by simp [natToBytes5_length])]
      dsimp only
      rw [bytesToNat_natToBytes5 _ hv]
      rw [show (0x3F : Nat) = 2 ^ 6 - 1 from rfl, Nat.and_pow_two_sub_one_eq_mod, hmod]
      simp only [REVERSE_OPCODES]
      rw [show (0x7F : Nat) = 2 ^ 7 - 1 from rfl]
      first
        | rw [show (0x1FFFFFF : Nat) = 2 ^ 25 - 1 from rfl]
        | rw [show (0x1FFF : Nat) = 2 ^ 13 - 1 from rfl]
        | skip
      rw [Nat.shiftRight_eq_div_pow, Nat.shiftRight_eq_div_pow,
        Nat.and_pow_two_sub_one_eq_mod, Nat.and_pow_two_sub_one_eq_mod]
      simp only [Option.some.injEq, Entry.mk.injEq, true_and]
      omega

/-- A successful lookup in `REVERSE_OPCODES` inverts `OPCODES`. -/
theorem REVERSE_OPCODES_some (x : Nat) (op : Op) (h : REVERSE_OPCODES x = some op) :
    x = OPCODES op := by
  unfold REVERSE_OPCODES at h
  split at h <;>
    first
      | (cases h; rfl)
      | exact absurd h (by simp)

/-- Any successfully decoded instruction has its A field equal to its
opcode's code, B below `2 ^ 7`, and C below the opcode's C-width bound. -/
theorem decode_fields (bs : List Nat) (e : Entry) (h : decode_instruction bs = some e) :
    e.A = OPCODES e.opcode ∧ e.B < 2 ^ 7 ∧ e.C < 2 ^ size_C e.opcode := by
  rw [decode_instruction] at h
  split at h
  · exact absurd h (by simp)
  · dsimp only at h
    split at h
    · exact absurd h (by simp)
    · rename_i op hop
      cases h
      dsimp only
      refine ⟨REVERSE_OPCODES_some _ _ hop, ?_, ?_⟩
      · rw [show (0x7F : Nat) = 2 ^ 7 - 1 from rfl, Nat.and_pow_two_sub_one_eq_mod]
        exact Nat.mod_lt _ (by norm_num)
      · cases op <;>
        · dsimp only [size_C]
          first
            | rw [show (0x1FFFFFF : Nat) = 2 ^ 25 - 1 from rfl]
            | rw [show (0x7F : Nat) = 2 ^ 7 - 1 from rfl]
            | rw [show (0x1FFF : Nat) = 2 ^ 13 - 1 from rfl]
          rw [Nat.and_pow_two_sub_one_eq_mod]
          exact Nat.mod_lt _ (by norm_num)

/-- C1: for every instruction record whose A field is the numeric code of its
opcode, whose B field is in [0,127] and whose C field fits the opcode's C
width (25 bits for load_const, 7 for read_mem, 13 for write_mem/not),
decoding the 5 little-endian bytes produced by the encoder's packing yields
exactly the same record: `decode (encode x) = x`. -/
theorem c1_decode_encode_roundtrip (e : Entry) (hA : e.A = OPCODES e.opcode)
    (hB : e.B ≤ 127) (hC : e.C < 2 ^ size_C e.opcode) :
    decode_instruction (encodeEntry e) = some e := by
  obtain ⟨op, A, B, C⟩ := e
  dsimp only at hA hB hC
  subst hA
  rw [encodeEntry_packed op B C (by omega) hC, decode_packed op B C (by omega) hC]

/-- Witness for C1 at the concrete record `load_const A=56 B=47 C=435`. -/
theorem c1_decode_encode_roundtrip_witness :
    decode_instruction (encodeEntry ⟨.load_const, 56, 47, 435⟩)
      = some ⟨.load_const, 56, 47, 435⟩ :=
  c1_decode_encode_roundtrip ⟨.load_const, 56, 47, 435⟩ rfl (by norm_num) (by decide)

/-- C2: the four literal end-to-end vectors: assembling each single symbolic
command produces exactly the 5 bytes stated in the specification. -/
theorem c2_literal_encoding_vectors :
    assemble [{ opcode := some "load_const", dest_reg := some 47, value := some 435 }]
        = .ok [0xF8, 0x6B, 0x36, 0x00, 0x00] ∧
      assemble [{ opcode := some "read_mem", src_reg := some 111, dest_reg := some 117 }]
        = .ok [0xFE, 0xBB, 0x0E, 0x00, 0x00] ∧
      assemble [{ opcode := some "write_mem", src_reg := some 45, dest_addr := some 298 }]
        = .ok [0x76, 0x4B, 0x25, 0x00, 0x00] ∧
      assemble [{ opcode := some "not", src_reg := some 7, dest_addr := some 893 }]
        = .ok [0xFB, 0xA1, 0x6F, 0x00, 0x00] :=
  ⟨rfl, rfl, rfl, rfl⟩

/-- C4: executing a `not` instruction with destination address C in range
(every decoded `not` has C < 8192) stores at `data_memory[C]` a value below
`2 ^ 32` whose bits are exactly the flipped low 32 bits of `registers[B]`
(the two's-complement `~registers[B]` masked by `0xFFFFFFFF`); in particular
`load_const R1 := 5` followed by `not src_reg=1, dest_addr=10` leaves
`memory[10] = 0xFFFFFFFA`. -/
theorem c4_not_semantics :
    (∀ (s : Interpreter) (e : Entry), e.opcode = .not_ → e.C < MEM_SIZE →
      (execute_instruction s e).data_memory e.C < 2 ^ 32 ∧
        ∀ k, ((execute_instruction s e).data_memory e.C).testBit k
              = (decide (k < 32) && !((s.registers e.B).testBit k))) ∧
    (execute_instruction
        (execute_instruction (initInterpreter []) ⟨.load_const, 56, 1, 5⟩)
        ⟨.not_, 59, 1, 10⟩).data_memory 10 = 0xFFFFFFFA := by
  constructor
  · intro s e hop hC
    have hmem : (execute_instruction s e).data_memory e.C
        = bitwiseNot32 (s.registers e.B) := by
      unfold execute_instruction
      rw [hop]
      dsimp only
      rw [if_pos hC]
      exact Function.update_same _ _ _
    rw [hmem]
    unfold bitwiseNot32
    constructor
    · exact Nat.xor_lt_two_pow (Nat.mod_lt _ (by norm_num)) (by norm_num)
    · intro k
      rw [Nat.testBit_xor, Nat.testBit_mod_two_pow,
        show (0xFFFFFFFF : Nat) = 2 ^ 32 - 1 from rfl, Nat.testBit_two_pow_sub_one]
      cases h : decide (k < 32) <;> cases hb : (s.registers e.B).testBit k <;> simp [h, hb]
  · decide

/-- Witness for C4, instantiating the universal part at a concrete state and
instruction: the complement of register value 5 written to address 10. -/
theorem c4_not_semantics_witness :
    (execute_instruction
        (execute_instruction (initInterpreter []) ⟨.load_const, 56, 1, 5⟩)
        ⟨.not_, 59, 1, 10⟩).data_memory 10 < 2 ^ 32 :=
  (c4_not_semantics.1
    (execute_instruction (initInterpreter []) ⟨.load_const, 56, 1, 5⟩)
    ⟨.not_, 59, 1, 10⟩ rfl (by norm_num [MEM_SIZE])).1

/-- C8: frame conditions per opcode: `load_const` and `read_mem` leave the
whole data memory unchanged and modify at most one register; `write_mem` and
`not` leave the whole register file unchanged and modify at most one memory
cell; no instruction modifies the instruction stream. -/
theorem c8_frame_conditions (s : Interpreter) (e : Entry) :
    ((e.opcode = .load_const ∨ e.opcode = .read_mem) →
      (execute_instruction s e).data_memory = s.data_memory ∧
        ∃ r, ∀ j, j ≠ r → (execute_instruction s e).registers j = s.registers j) ∧
    ((e.opcode = .write_mem ∨ e.opcode = .not_) →
      (execute_instruction s e).registers = s.registers ∧
        ∃ a, ∀ j, j ≠ a → (execute_instruction s e).data_memory j = s.data_memory j) ∧
    (execute_instruction s e).instruction_memory = s.instruction_memory := by
  refine ⟨?_, ?_, execute_instruction_memory s e⟩
  · rintro (hop | hop)
    · unfold execute_instruction
      rw [hop]
      dsimp only
      exact ⟨rfl, e.B, fun j hj => Function.update_noteq hj _ _⟩
    · unfold execute_instruction
      rw [hop]
      dsimp only
      split
      · exact ⟨rfl, e.C, fun j hj => Function.update_noteq hj _ _⟩
      · exact ⟨rfl, 0, fun _ _ => rfl⟩
  · rintro (hop | hop) <;>
      · unfold execute_instruction
        rw [hop]
        dsimp only
        split
        · exact ⟨rfl, e.C, fun j hj => Function.update_noteq hj _ _⟩
        · exact ⟨rfl, 0, fun _ _ => rfl⟩

/-- Witness for C8: a `write_mem` instruction leaves the register file of a
concrete state unchanged. -/
theorem c8_frame_conditions_witness :
    (execute_instruction (initInterpreter []) ⟨.write_mem, 54, 3, 7⟩).registers
      = (initInterpreter []).registers :=
  ((c8_frame_conditions (initInterpreter []) ⟨.write_mem, 54, 3, 7⟩).2.1 (Or.inl rfl)).1

/-- The loop exits at once when the interpreter is halted or `pc` is past the
end of the instruction stream. -/
theorem run_not_running (s : Interpreter)
    (h : ¬(s.halted = false ∧ s.pc < s.instruction_memory.length)) : run s = (s, 0) := by
  rw [run, dif_neg h]

/-- The loop breaks on an incomplete (fewer than 5 remaining bytes) fetch. -/
theorem run_incomplete (s : Interpreter) (h1 : s.halted = false)
    (h2 : s.pc < s.instruction_memory.length)
    (h3 : s.instruction_memory.length < s.pc + 5) : run s = (s, 0) := by
  rw [run, dif_pos ⟨h1, h2⟩, if_pos h3]

/-- The loop breaks when the fetched 5 bytes fail to decode. -/
theorem run_decode_none (s : Interpreter) (h1 : s.halted = false)
    (h2 : s.pc + 5 ≤ s.instruction_memory.length)
    (hd : decode_instruction ((s.instruction_memory.drop s.pc).take 5) = none) :
    run s = (s, 0) := by
  rw [run, dif_pos ⟨h1, by omega⟩, if_neg (by omega), hd]

/-- When the fetched 5 bytes decode, the loop executes the instruction and
continues from `pc + 5`, counting one more step. -/
theorem run_step (s : Interpreter) (e : Entry) (h1 : s.halted = false)
    (h2 : s.pc + 5 ≤ s.instruction_memory.length)
    (hd : decode_instruction ((s.instruction_memory.drop s.pc).take 5) = some e) :
    run s = ((run (postStep s e)).1, (run (postStep s e)).2 + 1) := by
  rw [run, dif_pos ⟨h1, by omega⟩, if_neg (by omega), hd]

theorem postStep_halted (s : Interpreter) (e : Entry) :
    (postStep s e).halted
      = if s.instruction_memory.length ≤ s.pc + 5 then true else s.halted := by
  unfold postStep
  dsimp only
  simp only [execute_instruction_memory, execute_pc]
  split <;> simp [execute_halted]

theorem postStep_registers (s : Interpreter) (e : Entry) :
    (postStep s e).registers = (execute_instruction s e).registers := by
  unfold postStep
  dsimp only
  split <;> rfl

theorem postStep_data_memory (s : Interpreter) (e : Entry) :
    (postStep s e).data_memory = (execute_instruction s e).data_memory := by
  unfold postStep
  dsimp only
  split <;> rfl

/-- When the stream length is a multiple of 5, the loop is not halted, `pc`
is 5-aligned and within the stream, and every aligned 5-byte chunk decodes,
the loop executes exactly one instruction per remaining chunk and stops with
`pc` at the end of the stream. -/
theorem run_complete_aux (n : Nat) :
    ∀ s : Interpreter, s.instruction_memory.length - s.pc = n → s.halted = false →
      s.pc % 5 = 0 → s.instruction_memory.length % 5 = 0 →
      s.pc ≤ s.instruction_memory.length →
      (∀ k, 5 * k + 5 ≤ s.instruction_memory.length →
        (decode_instruction ((s.instruction_memory.drop (5 * k)).take 5)).isSome = true) →
      (run s).2 = (s.instruction_memory.length - s.pc) / 5 ∧
        (run s).1.pc = s.instruction_memory.length := by
  induction n using Nat.strong_induction_on with
  | _ n IH =>
    intro s hn h0 hp5 hl5 hple hdec
    rcases Nat.eq_or_lt_of_le hple with heq | hlt
    · rw [run_not_running s (by rintro ⟨-, hc⟩; omega)]
      exact ⟨by dsimp only; omega, by dsimp only; omega⟩
    · have hge : s.pc + 5 ≤ s.instruction_memory.length := by omega
      have hchunk := hdec (s.pc / 5) (by omega)
      rw [show 5 * (s.pc / 5) = s.pc from by omega] at hchunk
      obtain ⟨e, hd⟩ := Option.isSome_iff_exists.mp hchunk
      rw [run_step s e h0 hge hd]
      by_cases hend : s.instruction_memory.length ≤ s.pc + 5
      · rw [run_not_running (postStep s e)
          (by rintro ⟨-, hc⟩; rw [postStep_instruction_memory, postStep_pc] at hc; omega)]
        refine ⟨by dsimp only; omega, ?_⟩
        dsimp only
        rw [postStep_pc]
        omega
      · obtain ⟨h1, h2⟩ := IH (s.instruction_memory.length - (s.pc + 5)) (by omega)
          (postStep s e) (by rw [postStep_instruction_memory, postStep_pc])
          (by rw [postStep_halted, if_neg (by omega)]; exact h0)
          (by rw [postStep_pc]; omega)
          (by rw [postStep_instruction_memory]; exact hl5)
          (by rw [postStep_instruction_memory, postStep_pc]; omega)
          (by simp only [postStep_instruction_memory]; exact hdec)
        simp only [postStep_instruction_memory, postStep_pc] at h1 h2
        constructor
        · dsimp only
          rw [h1]
          omega
        · dsimp only
          exact h2

/-- C3 counterexample: the 5-byte stream `[0,0,0,0,0]` has length a multiple
of 5, yet the run executes 0 steps, not `length / 5 = 1`, because the chunk
fails to decode (its A field, 0, is not in the opcode table). -/
theorem c3_termination_counterexample :
    (initInterpreter [0, 0, 0, 0, 0]).instruction_memory.length % 5 = 0 ∧
      (run (initInterpreter [0, 0, 0, 0, 0])).2
        ≠ (initInterpreter [0, 0, 0, 0, 0]).instruction_memory.length / 5 := by
  refine ⟨rfl, ?_⟩
  rw [run_decode_none _ rfl (by decide) (by decide)]
  decide

/-- C3 (amended): for every instruction stream whose byte length is a
multiple of 5 AND every aligned 5-byte chunk of which decodes successfully,
the run loop starting at `pc = 0` halts after executing exactly `length / 5`
steps, with `pc` advanced by 5 per step to exactly the stream length.  (The
unamended claim fails when a chunk does not decode: see the
counterexample.) -/
theorem c3_termination (s : Interpreter) (h0 : s.halted = false) (hpc : s.pc = 0)
    (hlen : s.instruction_memory.length % 5 = 0)
    (hdec : ∀ k, 5 * k + 5 ≤ s.instruction_memory.length →
      (decode_instruction ((s.instruction_memory.drop (5 * k)).take 5)).isSome = true) :
    (run s).2 = s.instruction_memory.length / 5 ∧
      (run s).1.pc = s.instruction_memory.length := by
  have h := run_complete_aux (s.instruction_memory.length - s.pc) s rfl h0
    (by omega) hlen (by omega) hdec
  rw [hpc] at h
  simpa using h

/-- Witness for C3 at the concrete two-instruction stream made of the
`load_const` and `not` test vectors: 2 steps, final `pc = 10`. -/
theorem c3_termination_witness :
    (run (initInterpreter [0xF8, 0x6B, 0x36, 0, 0, 0xFB, 0xA1, 0x6F, 0, 0])).2
        = (initInterpreter [0xF8, 0x6B, 0x36, 0, 0, 0xFB, 0xA1, 0x6F, 0, 0]).instruction_memory.length / 5 ∧
      (run (initInterpreter [0xF8, 0x6B, 0x36, 0, 0, 0xFB, 0xA1, 0x6F, 0, 0])).1.pc
        = (initInterpreter [0xF8, 0x6B, 0x36, 0, 0, 0xFB, 0xA1, 0x6F, 0, 0]).instruction_memory.length :=
  c3_termination (initInterpreter [0xF8, 0x6B, 0x36, 0, 0, 0xFB, 0xA1, 0x6F, 0, 0]) rfl rfl
    (by decide)
    (by
      intro k hk
      have h10 : (initInterpreter
          [0xF8, 0x6B, 0x36, 0, 0, 0xFB, 0xA1, 0x6F, 0, 0]).instruction_memory.length = 10 := rfl
      rw [h10] at hk
      have hk1 : k ≤ 1 := by omega
      interval_cases k <;> decide)

/-- C5: an out-of-bounds `read_mem` (register B holding an address at or above
8192) changes no register and no memory cell; an in-bounds one copies
`memory[registers[B]]` into register C and leaves memory unchanged; and
whenever the fetched bytes decode (in particular to an out-of-bounds
`read_mem`), the loop executes the instruction and continues with the next
one rather than halting. -/
theorem c5_read_mem_out_of_bounds :
    (∀ (s : Interpreter) (e : Entry), e.opcode = .read_mem →
      (MEM_SIZE ≤ s.registers e.B → execute_instruction s e = s) ∧
      (s.registers e.B < MEM_SIZE →
        (execute_instruction s e).registers
            = Function.update s.registers e.C (s.data_memory (s.registers e.B)) ∧
          (execute_instruction s e).data_memory = s.data_memory)) ∧
    (∀ (s : Interpreter) (e : Entry), s.halted = false →
      s.pc + 5 ≤ s.instruction_memory.length →
      decode_instruction ((s.instruction_memory.drop s.pc).take 5) = some e →
      run s = ((run (postStep s e)).1, (run (postStep s e)).2 + 1)) := by
  constructor
  · intro s e hop
    constructor
    · intro h
      unfold execute_instruction
      rw [hop]
      dsimp only
      rw [if_neg (by omega)]
    · intro h
      unfold execute_instruction
      rw [hop]
      dsimp only
      rw [if_pos h]
      exact ⟨rfl, rfl⟩
  · exact run_step

/-- Witness for C5: in a state where register 1 holds 9000 (≥ 8192), an
out-of-bounds `read_mem` leaves the state exactly unchanged. -/
theorem c5_read_mem_out_of_bounds_witness :
    execute_instruction
        (execute_instruction (initInterpreter []) ⟨.load_const, 56, 1, 9000⟩)
        ⟨.read_mem, 62, 1, 2⟩
      = execute_instruction (initInterpreter []) ⟨.load_const, 56, 1, 9000⟩ :=
  (c5_read_mem_out_of_bounds.1
    (execute_instruction (initInterpreter []) ⟨.load_const, 56, 1, 9000⟩)
    ⟨.read_mem, 62, 1, 2⟩ rfl).1 (by decide)

/-- C7: `decode_instruction` fails exactly when the input is not 5 bytes long
or the extracted A field (bits 0-5) is none of 54, 56, 59, 62; and in the
run loop both a short fetch and a decode failure halt execution immediately,
with no further instruction executed. -/
theorem c7_decoder_failures_fatal :
    (∀ bs : List Nat,
      decode_instruction bs = none ↔
        (bs.length ≠ 5 ∨
          ¬(bytesToNat bs &&& 0x3F = 54 ∨ bytesToNat bs &&& 0x3F = 56 ∨
            bytesToNat bs &&& 0x3F = 59 ∨ bytesToNat bs &&& 0x3F = 62))) ∧
    (∀ s : Interpreter, s.halted = false → s.pc < s.instruction_memory.length →
      s.instruction_memory.length < s.pc + 5 → run s = (s, 0)) ∧
    (∀ s : Interpreter, s.halted = false → s.pc + 5 ≤ s.instruction_memory.length →
      decode_instruction ((s.instruction_memory.drop s.pc).take 5) = none →
      run s = (s, 0)) := by
  refine ⟨?_, run_incomplete, run_decode_none⟩
  intro bs
  have hrev : ∀ x : Nat, REVERSE_OPCODES x = none ↔ ¬(x = 54 ∨ x = 56 ∨ x = 59 ∨ x = 62) := by
    intro x
    unfold REVERSE_OPCODES
    split <;> simp_all
  rw [decode_instruction]
  split
  · rename_i hlen
    simp [hlen]
  · rename_i hlen
    dsimp only
    split
    · rename_i hnone
      simp only [hlen, false_or]
      exact iff_of_true trivial ((hrev _).mp hnone)
    · rename_i op hop
      have hx := REVERSE_OPCODES_some _ _ hop
      refine iff_of_false (by simp) ?_
      intro hor
      rcases hor with h | h
      · exact hlen h
      · exact h (by rw [hx]; cases op <;> simp [OPCODES])

/-- Witness for C7: a 7-byte stream with `pc = 5` leaves an incomplete
2-byte tail, so the loop halts at once having executed nothing. -/
theorem c7_decoder_failures_fatal_witness :
    run { instruction_memory := [1, 2, 3, 4, 5, 6, 7], data_memory := fun _ => 0,
          registers := fun _ => 0, pc := 5, halted := false }
      = ({ instruction_memory := [1, 2, 3, 4, 5, 6, 7], data_memory := fun _ => 0,
           registers := fun _ => 0, pc := 5, halted := false }, 0) :=
  c7_decoder_failures_fatal.2.1 _ rfl (by decide) (by decide)

/-- Equivalence: `translate_command` succeeds exactly on the commands the specification
calls valid. -/
theorem translate_eq_valid (c : Cmd) : (translate_command c).isSome = validCmdSpec c := by
  rcases c with ⟨copc, cdr, cv, csr, cda⟩
  rcases copc with _ | op
  · rfl
  · unfold translate_command validCmdSpec
    dsimp only
    by_cases h1 : op = "load_const"
    · subst h1
      rw [if_pos rfl, if_pos rfl]
      unfold translate_load_const
      dsimp only
      rcases cdr with _ | dr <;> rcases cv with _ | v <;> try rfl
      rw [show ((2 : Int) ^ 25 - 1) = 0x1FFFFFF from by norm_num]
      by_cases hd : (0 ≤ dr ∧ dr ≤ 127) <;> by_cases hv : (0 ≤ v ∧ v ≤ (0x1FFFFFF : Int)) <;>
        simp [hd, hv]
    · rw [if_neg h1, if_neg h1]
      by_cases h2 : op = "read_mem"
      · subst h2
        rw [if_pos rfl, if_pos rfl]
        unfold translate_read_mem
        dsimp only
        rcases csr with _ | sr <;> rcases cdr with _ | dr <;> try rfl
        by_cases hs : (0 ≤ sr ∧ sr ≤ 127) <;> by_cases hd : (0 ≤ dr ∧ dr ≤ 127) <;>
          simp [hs, hd]
      · rw [if_neg h2, if_neg h2]
        by_cases h3 : op = "write_mem"
        · subst h3
          rw [if_pos rfl, if_pos rfl]
          unfold translate_write_mem
          dsimp only
          rcases csr with _ | sr <;> rcases cda with _ | da <;> try rfl
          rw [show ((2 : Int) ^ 13 - 1) = 0x1FFF from by norm_num]
          by_cases hs : (0 ≤ sr ∧ sr ≤ 127) <;> by_cases hd : (0 ≤ da ∧ da ≤ (0x1FFF : Int)) <;>
            simp [hs, hd]
        · rw [if_neg h3, if_neg h3]
          by_cases h4 : op = "not"
          · subst h4
            rw [if_pos rfl, if_pos rfl]
            unfold translate_not
            dsimp only
            rcases csr with _ | sr <;> rcases cda with _ | da <;> try rfl
            rw [show ((2 : Int) ^ 13 - 1) = 0x1FFF from by norm_num]
            by_cases hs : (0 ≤ sr ∧ sr ≤ 127) <;> by_cases hd : (0 ≤ da ∧ da ≤ (0x1FFF : Int)) <;>
              simp [hs, hd]
          · rw [if_neg h4, if_neg h4]
            rfl

theorem encodeEntry_length (e : Entry) : (encodeEntry e).length = 5 := by
  cases heq : e.opcode <;> (unfold encodeEntry; rw [heq]) <;> rfl

theorem generate_binary_length (p : List Entry) : (generate_binary p).length = 5 * p.length := by
  unfold generate_binary
  induction p with
  | nil => rfl
  | cons e rest ih =>
    simp only [List.map_cons, List.flatten_cons, List.length_append, List.length_cons,
      encodeEntry_length, ih]
    omega

/-- Translating a list of all-valid commands succeeds, yielding one record
per command. -/
theorem translate_all_ok (cmds : List Cmd) (k : Nat)
    (h : ∀ c ∈ cmds, validCmdSpec c = true) :
    ∃ es, translate_all cmds k = .ok es ∧ es.length = cmds.length := by
  induction cmds generalizing k with
  | nil => exact ⟨[], rfl, rfl⟩
  | cons c rest ih =>
    have hc : (translate_command c).isSome = true := by
      rw [translate_eq_valid]; exact h c (by simp)
    obtain ⟨e, he⟩ := Option.isSome_iff_exists.mp hc
    obtain ⟨es, hes, hlen⟩ := ih (k + 1) (fun c hc => h c (by simp [hc]))
    refine ⟨e :: es, ?_, by simp [hlen]⟩
    unfold translate_all
    rw [he, hes]

/-- Translating a list whose first invalid command sits at index `i` fails
with index `k + i` when numbering starts at `k`. -/
theorem translate_all_error (cmds : List Cmd) (k i : Nat) (hi : i < cmds.length)
    (hbad : validCmdSpec (cmds.get ⟨i, hi⟩) = false)
    (hgood : ∀ j (hj : j < cmds.length), j < i → validCmdSpec (cmds.get ⟨j, hj⟩) = true) :
    translate_all cmds k = .error (k + i) := by
  induction cmds generalizing k i with
  | nil => simp at hi
  | cons c rest ih =>
    cases i with
    | zero =>
      have hc : (translate_command c).isSome = false := by
        rw [translate_eq_valid]; exact hbad
      have hnone : translate_command c = none := by
        cases htc : translate_command c
        · rfl
        · rw [htc] at hc; simp at hc
      unfold translate_all
      rw [hnone]
      rfl
    | succ i' =>
      have hc : (translate_command c).isSome = true := by
        rw [translate_eq_valid]; exact hgood 0 (by simp) (by omega)
      obtain ⟨e, he⟩ := Option.isSome_iff_exists.mp hc
      have hrec := ih (k + 1) i' (by simpa using hi) hbad
        (fun j hj hlt => hgood (j + 1) (by simpa using hj) (by omega))
      unfold translate_all
      rw [he, hrec]
      show Except.error (k + 1 + i') = Except.error (k + (i' + 1))
      congr 1
      omega

/-- C6: encoder validation is first-error-fatal and all-or-nothing:
`translate_command` succeeds exactly on commands that are valid in the
specification's sense; an all-valid list assembles to a binary of exactly
5 bytes per command; and a list whose first invalid command sits at
zero-based index `i` makes the whole assembly fail with index `i`, producing
no binary. -/
theorem c6_validation_first_error :
    (∀ c : Cmd, (translate_command c).isSome = validCmdSpec c) ∧
    (∀ cmds : List Cmd, (∀ c ∈ cmds, validCmdSpec c = true) →
      ∃ bs, assemble cmds = .ok bs ∧ bs.length = 5 * cmds.length) ∧
    (∀ (cmds : List Cmd) (i : Nat) (hi : i < cmds.length),
      validCmdSpec (cmds.get ⟨i, hi⟩) = false →
      (∀ j (hj : j < cmds.length), j < i → validCmdSpec (cmds.get ⟨j, hj⟩) = true) →
      assemble cmds = .error i) := by
  refine ⟨translate_eq_valid, ?_, ?_⟩
  · intro cmds h
    obtain ⟨es, hes, hlen⟩ := translate_all_ok cmds 0 h
    refine ⟨generate_binary es, ?_, ?_⟩
    · unfold assemble
      rw [hes]
    · rw [generate_binary_length, hlen]
  · intro cmds i hi hbad hgood
    unfold assemble
    rw [translate_all_error cmds 0 i hi hbad hgood]
    show Except.error (0 + i) = Except.error i
    congr 1
    omega

/-- Witness for C6: a valid `load_const` followed by an unknown opcode
`jump` fails with index 1. -/
theorem c6_validation_first_error_witness :
    assemble [{ opcode := some "load_const", dest_reg := some 47, value := some 435 },
        { opcode := some "jump" }] = .error 1 :=
  c6_validation_first_error.2.2 _ 1 (by norm_num) (by decide)
    (by
      intro j hj hlt
      have hj0 : j = 0 := by omega
      subst hj0
      show validCmdSpec
          { opcode := some "load_const", dest_reg := some 47, value := some 435 } = true
      decide)

/-- Execution of an instruction whose C field fits its opcode's C width
(true of every decoded instruction) preserves the 32-bit value invariant. -/
theorem execute_preserves_values (s : Interpreter) (e : Entry)
    (hC : e.C < 2 ^ size_C e.opcode) (h : Inv32 s) : Inv32 (execute_instruction s e) := by
  obtain ⟨hr, hm⟩ := h
  have hnot : ∀ x : Nat, bitwiseNot32 x < 2 ^ 32 := fun x =>
    Nat.xor_lt_two_pow (Nat.mod_lt _ (by norm_num)) (by norm_num)
  unfold execute_instruction
  split
  · rename_i hop
    rw [hop] at hC
    simp only [size_C] at hC
    refine ⟨?_, hm⟩
    intro i
    dsimp only
    rcases eq_or_ne i e.B with hi | hi
    · subst hi
      rw [Function.update_same]
      omega
    · rw [Function.update_noteq hi]
      exact hr i
  · dsimp only
    split
    · refine ⟨?_, hm⟩
      intro i
      dsimp only
      rcases eq_or_ne i e.C with hi | hi
      · subst hi
        rw [Function.update_same]
        exact hm _
      · rw [Function.update_noteq hi]
        exact hr i
    · exact ⟨hr, hm⟩
  · dsimp only
    split
    · refine ⟨hr, ?_⟩
      intro i
      dsimp only
      rcases eq_or_ne i e.C with hi | hi
      · subst hi
        rw [Function.update_same]
        exact hr _
      · rw [Function.update_noteq hi]
        exact hm i
    · exact ⟨hr, hm⟩
  · dsimp only
    split
    · refine ⟨hr, ?_⟩
      intro i
      dsimp only
      rcases eq_or_ne i e.C with hi | hi
      · subst hi
        rw [Function.update_same]
        exact hnot _
      · rw [Function.update_noteq hi]
        exact hm i
    · exact ⟨hr, hm⟩

theorem postStep_preserves_values (s : Interpreter) (e : Entry)
    (hC : e.C < 2 ^ size_C e.opcode) (h : Inv32 s) : Inv32 (postStep s e) := by
  have hx := execute_preserves_values s e hC h
  exact ⟨by rw [postStep_registers]; exact hx.1, by rw [postStep_data_memory]; exact hx.2⟩

/-- The whole run loop preserves the 32-bit value invariant. -/
theorem run_preserves_values : ∀ s : Interpreter, Inv32 s → Inv32 (run s).1 := by
  intro s
  induction s using run.induct with
  | case1 s hcond hshort =>
    intro h
    rw [run_incomplete s hcond.1 hcond.2 hshort]
    exact h
  | case2 s hcond hshort hd =>
    intro h
    rw [run_decode_none s hcond.1 (by omega) hd]
    exact h
  | case3 s hcond hshort e hd ih =>
    intro h
    rw [run_step s e hcond.1 (by omega) hd]
    exact ih (postStep_preserves_values s e (decode_fields _ _ hd).2.2 h)
  | case4 s hcond =>
    intro h
    rw [run_not_running s hcond]
    exact h

/-- C9: 32 bits suffice: the freshly loaded interpreter satisfies the 32-bit
value invariant, every execution of a decoded instruction preserves it, and
therefore the whole run loop preserves it — after every step all register
and data-memory values lie in [0, 2^32). -/
theorem c9_values_32bit :
    (∀ program : List Nat, Inv32 (initInterpreter program)) ∧
    (∀ (bs : List Nat) (e : Entry) (s : Interpreter), decode_instruction bs = some e →
      Inv32 s → Inv32 (execute_instruction s e)) ∧
    (∀ s : Interpreter, Inv32 s → Inv32 (run s).1) :=
  ⟨fun _ => ⟨fun _ => by norm_num [initInterpreter], fun _ => by norm_num [initInterpreter]⟩,
    fun _ e s hd h => execute_preserves_values s e (decode_fields _ _ hd).2.2 h,
    run_preserves_values⟩

/-- Witness for C9: the invariant holds after running the `load_const` test
vector from a zeroed state. -/
theorem c9_values_32bit_witness :
    Inv32 (run (initInterpreter [0xF8, 0x6B, 0x36, 0, 0])).1 :=
  c9_values_32bit.2.2 _
    ⟨fun _ => by norm_num [initInterpreter], fun _ => by norm_num [initInterpreter]⟩

/-- C10: the out-of-bounds branch for `write_mem` and `not` is unreachable:
a decoded `write_mem` or `not` instruction always has C below the data-memory
size 8192 (the decoder masks C to 13 bits), so executing it always performs
the memory write. -/
theorem c10_write_bounds_unreachable (bs : List Nat) (e : Entry) (s : Interpreter)
    (h : decode_instruction bs = some e) :
    (e.opcode = .write_mem →
      e.C < MEM_SIZE ∧
        (execute_instruction s e).data_memory
          = Function.update s.data_memory e.C (s.registers e.B)) ∧
    (e.opcode = .not_ →
      e.C < MEM_SIZE ∧
        (execute_instruction s e).data_memory
          = Function.update s.data_memory e.C (bitwiseNot32 (s.registers e.B))) := by
  have hC := (decode_fields bs e h).2.2
  constructor <;>
    · intro hop
      rw [hop] at hC
      simp only [size_C] at hC
      have hC' : e.C < MEM_SIZE := by unfold MEM_SIZE; omega
      refine ⟨hC', ?_⟩
      unfold execute_instruction
      rw [hop]
      dsimp only
      rw [if_pos hC']

/-- Witness for C10: decoding the specification's `write_mem` test vector and
executing it performs the write at address 298. -/
theorem c10_write_bounds_unreachable_witness :
    (298 : Nat) < MEM_SIZE ∧
      (execute_instruction (initInterpreter []) ⟨.write_mem, 54, 45, 298⟩).data_memory
        = Function.update (initInterpreter []).data_memory 298
            ((initInterpreter []).registers 45) :=
  (c10_write_bounds_unreachable [0x76, 0x4B, 0x25, 0x00, 0x00] ⟨.write_mem, 54, 45, 298⟩
    (initInterpreter []) (by decide)).1 rfl

end UVM
